import Mathlib

/-!
Verification of the CAELUS Orchestrator Process Manager
(src/Orchestrator/process_manager.py) against its specification.

The Python source is shallowly embedded: the `Process` class becomes a
`Proc` structure whose supervisor thread is a small phase automaton, the
`ProcessManager` becomes an `MState` structure, and the concurrent system
is a labelled transition function `exec1` on `MState`, with reachability
expressed as execution of a list of `Action`s from the initial state.
-/

namespace Orchestrator

/-- Process status constants, from `Process.CREATED, RUNNING, ERROR,
TERMINATED, HALTED = 0,1,2,3,4` in process_manager.py line 18. -/
inductive Status
  | CREATED
  | RUNNING
  | ERROR
  | TERMINATED
  | HALTED
deriving DecidableEq, Repr

/-- Embeds `Process.status_to_string` (process_manager.py lines 19-21). -/
def status_to_string : Status → String
  | .CREATED => "CREATED"
  | .RUNNING => "RUNNING"
  | .ERROR => "ERROR"
  | .TERMINATED => "TERMINATED"
  | .HALTED => "HALTED"

/-- The terminal statuses, as classified by the monitor loop
(process_manager.py lines 275-285) and by spec section 4.3. -/
def Status.isTerminal : Status → Bool
  | .TERMINATED => true
  | .ERROR => true
  | .HALTED => true
  | _ => false

/-- Modelled from the spec: the module `Orchestrator/error_codes.py` is
imported by process_manager.py (line 15) but absent from src/.  Spec
section 6 fixes `OK` and says the codes are "stable integers assigned by
the repository" and pairwise distinct; the concrete values below are
placeholders, only `OK = 0` and the distinctness are used. -/
def OK : Nat := 0

/-- Modelled from the spec: see `OK`. -/
def SIGTERM : Nat := 143

/-- Modelled from the spec: see `OK`. -/
def SIGKILL : Nat := 137

/-- Modelled from the spec: see `OK`. -/
def MISSION_UPLOAD_FAIL : Nat := 1

/-- Modelled from the spec: see `OK`. -/
def STREAM_READ_FAILURE : Nat := 2

/-- Modelled from the spec: see `OK`. -/
def VEHICLE_TIMED_OUT : Nat := 3

/-- Modelled from the spec: see `OK`. -/
def PREMATURE_LANDING : Nat := 4

/-- Modelled from the spec: see `OK`. -/
def UNKNOWN_VEHICLE : Nat := 5

/-- Modelled from the spec: see `OK`. -/
def PX4_SIM_DESYNC : Nat := 6

/-- Modelled from the spec: see `OK`. -/
def TOO_MUCH_WIND : Nat := 7

/-- Modelled from the spec: see `OK`. -/
def UNDEFINED_ERROR : Nat := 8

/-- Embeds `Process.__code_to_result` (process_manager.py lines 70-92).  The
second component models the mutation of `self.__error`: the input `err`
is the prior value, the output the value after the call.  The branches
for `PREMATURE_LANDING`, `UNKNOWN_VEHICLE`, `PX4_SIM_DESYNC` and
`TOO_MUCH_WIND` in the source set the error message and fall through to
the final `return Process.ERROR`, so their result is the same as the
branches that return immediately. -/
def code_to_result (exit_code : Nat) (err : Option String) : Status × Option String :=
  if exit_code = OK then (.TERMINATED, err)
  else if exit_code = SIGTERM ∨ exit_code = SIGKILL then (.HALTED, err)
  else if exit_code = MISSION_UPLOAD_FAIL then
    (.ERROR, some "Mission upload fail.")
  else if exit_code = STREAM_READ_FAILURE then
    (.ERROR, some "Failed in starting up simulation stack.")
  else if exit_code = VEHICLE_TIMED_OUT then
    (.ERROR, some "Vehicle Mavlink connection timed out!")
  else if exit_code = PREMATURE_LANDING then
    (.ERROR, some "Vehicle has landed before reaching landing spot. Check vehicle configuration!")
  else if exit_code = UNKNOWN_VEHICLE then
    (.ERROR, some "Unknown vehicle model, check available vehicles.")
  else if exit_code = PX4_SIM_DESYNC then
    (.ERROR, some "PX4 simulation desync -- server may be overloaded.")
  else if exit_code = TOO_MUCH_WIND then
    (.ERROR, some "There is too much wind to fly safely.")
  else (.ERROR, err)

/-- The error code attached to the final transition by the container
monitor (process_manager.py line 115):
`error_code if error_code not in [OK, SIGTERM, SIGKILL] else None`. -/
def reported_error_code (error_code : Nat) : Option Nat :=
  if error_code = OK ∨ error_code = SIGTERM ∨ error_code = SIGKILL then none
  else some error_code

/-- The seven distinct messages attached to the domain exit codes. -/
def domain_messages : List String :=
  [ "Mission upload fail.",
    "Failed in starting up simulation stack.",
    "Vehicle Mavlink connection timed out!",
    "Vehicle has landed before reaching landing spot. Check vehicle configuration!",
    "Unknown vehicle model, check available vehicles.",
    "PX4 simulation desync -- server may be overloaded.",
    "There is too much wind to fly safely." ]

/-- C5: exit-code translation yields TERMINATED exactly for OK, HALTED
exactly for SIGTERM and SIGKILL, ERROR for every other code; each of the
seven domain codes gets its own distinct message; the error_code on the
final transition is the exit code exactly when it is not OK, SIGTERM or
SIGKILL, and absent otherwise. -/
theorem code_translation_correct :
    (∀ c e, ((code_to_result c e).1 = .TERMINATED ↔ c = OK)
      ∧ ((code_to_result c e).1 = .HALTED ↔ (c = SIGTERM ∨ c = SIGKILL))
      ∧ ((code_to_result c e).1 = .ERROR ↔ (c ≠ OK ∧ c ≠ SIGTERM ∧ c ≠ SIGKILL))
      ∧ (reported_error_code c = some c ↔ (c ≠ OK ∧ c ≠ SIGTERM ∧ c ≠ SIGKILL))
      ∧ (reported_error_code c = none ↔ (c = OK ∨ c = SIGTERM ∨ c = SIGKILL)))
    ∧ (∀ e, (code_to_result MISSION_UPLOAD_FAIL e).2 = some (domain_messages.get ⟨0, by decide⟩)
      ∧ (code_to_result STREAM_READ_FAILURE e).2 = some (domain_messages.get ⟨1, by decide⟩)
      ∧ (code_to_result VEHICLE_TIMED_OUT e).2 = some (domain_messages.get ⟨2, by decide⟩)
      ∧ (code_to_result PREMATURE_LANDING e).2 = some (domain_messages.get ⟨3, by decide⟩)
      ∧ (code_to_result UNKNOWN_VEHICLE e).2 = some (domain_messages.get ⟨4, by decide⟩)
      ∧ (code_to_result PX4_SIM_DESYNC e).2 = some (domain_messages.get ⟨5, by decide⟩)
      ∧ (code_to_result TOO_MUCH_WIND e).2 = some (domain_messages.get ⟨6, by decide⟩))
    ∧ domain_messages.Pairwise (· ≠ ·) := by
  refine ⟨?_, ?_, ?_⟩
  · intro c e
    unfold code_to_result reported_error_code
    unfold OK SIGTERM SIGKILL MISSION_UPLOAD_FAIL STREAM_READ_FAILURE VEHICLE_TIMED_OUT
      PREMATURE_LANDING UNKNOWN_VEHICLE PX4_SIM_DESYNC TOO_MUCH_WIND
    split_ifs <;> (simp_all; try omega)
  · intro e
    exact ⟨rfl, rfl, rfl, rfl, rfl, rfl, rfl⟩
  · decide

/-- The fields of the mission payload that the manager reads
(`mission_payload['operation_id']`, `mission_payload['effective_start_time']`,
`mission_payload['group_id']`); the rest of the payload is opaque. -/
structure Mission where
  operation_id : Nat
  effective_start_time : Nat
  group_id : Nat
deriving DecidableEq, Repr

/-- A queue item: the tuple
`(effective_start_time, _id, docker_image, mission_payload, issuer_id)`
put on `self.__ps_queue` by `schedule_process` (line 248).  Ids are
modelled as naturals drawn from a fresh counter (the source uses
`uuid.uuid4()` strings); docker images as naturals. -/
structure QItem where
  est : Nat
  id : Nat
  image : Nat
  mission : Mission
  issuer : Nat
deriving DecidableEq, Repr

/-- Program counter of a `Process` supervisor thread (`Process.run`,
lines 138-149, and `Process.__run_docker_instance`, lines 94-136):
`atRun` = thread started, before the `set_status(RUNNING)` at line 141;
`atDocker` = about to create and start the container;
`atMonitor` = container started (second `set_status(RUNNING)` at line
130 done), waiting in the inner monitor loop;
`done` = `run` returned after the final `set_status` at line 144. -/
inductive Phase
  | atRun
  | atDocker
  | atMonitor
  | done
deriving DecidableEq, Repr

/-- The `Process` object (process_manager.py lines 17-185).
`history` records the statuses passed to `set_status`, in order: one
entry per `self.__delegate.process_status_changed(self)` callback.
`created_at` is the `time.time()` at construction (line 33); in the
model construction happens at dequeue time, inside
`__start_new_process`. -/
structure Proc where
  id : Nat
  issuer : Nat
  image : Nat
  mission : Mission
  status : Status
  message : Option String
  error_code : Option Nat
  error : Option String
  should_stop : Bool
  created_at : Nat
  phase : Phase
  history : List Status
deriving DecidableEq, Repr

/-- Embeds `Process.__init__` (lines 23-37): status CREATED, no error, status
message "No message", should-stop flag clear. -/
def Process_mk (id issuer image : Nat) (m : Mission) (now : Nat) : Proc :=
  { id := id, issuer := issuer, image := image, mission := m,
    status := .CREATED, message := some "No message", error_code := none,
    error := none, should_stop := false, created_at := now,
    phase := .atRun, history := [] }

/-- Embeds `Process.set_status` (lines 51-55): overwrites status, message and
error_code, then fires the status-changed callback (recorded in
`history`).  In the source `message` and `error_code` default to `None`;
call sites that omit them pass `none` here. -/
def Proc.set_status (p : Proc) (s : Status) (message : Option String)
    (error_code : Option Nat) : Proc :=
  { p with
      status := s, message := message, error_code := error_code,
      history := p.history ++ [s] }

/-- Embeds `Process.halt` (lines 39-40). -/
def Proc.halt (p : Proc) : Proc := { p with should_stop := true }

/-- Python renders `None` as the string "None" inside an f-string;
any other value here is already a string. -/
def pyStr : Option String → String
  | none => "None"
  | some s => s

/-- Embeds `Process.get_status_string` (lines 48-49). -/
def Proc.get_status_string (p : Proc) : String :=
  status_to_string p.status ++ " (" ++ pyStr p.message ++ ")"

/-- Ordering of queue items in the `PriorityQueue`: Python compares the
tuples `(effective_start_time, _id, ...)` lexicographically, and ids are
unique, so the comparison never goes past the id. -/
def qLE (a b : QItem) : Bool :=
  a.est < b.est || (a.est = b.est && a.id ≤ b.id)

/-- Insertion keeping the queue sorted: models `PriorityQueue.put`
together with the heap's pop-minimum discipline; the head of the list is
the item `self.__ps_queue.queue[0]` would expose. -/
def qInsert (x : QItem) : List QItem → List QItem
  | [] => [x]
  | y :: ys => if qLE x y then x :: y :: ys else y :: qInsert x ys

/-- The `ProcessManager` state (lines 189-201): the admission queue, the
active and old maps (insertion-ordered, hence lists), the cached running
count, the cap, plus a wall clock for `time.time()` and the fresh-id
counter modelling `uuid.uuid4()`. -/
structure MState where
  max_concurrent_processes : Nat
  ps_running : Nat
  queue : List QItem
  active : List Proc
  old : List Proc
  clock : Nat
  next_id : Nat
deriving DecidableEq, Repr

/-- The manager state right after `ProcessManager.__init__` (lines
189-201): empty queue, empty active and old sets, running count 0. -/
def mk_manager (max_concurrent : Nat) (t0 : Nat) : MState :=
  { max_concurrent_processes := max_concurrent, ps_running := 0,
    queue := [], active := [], old := [], clock := t0, next_id := 0 }

/-- Result of `schedule_process`: `imageMissing` models the `return
None` at line 241, `duplicate` the exception raised at line 243 (the
spec's `DUPLICATE_OPERATION`), `ok id` the `return _id` at line 249. -/
inductive SchedResult
  | imageMissing
  | duplicate
  | ok (id : Nat)
deriving DecidableEq, Repr

/-- Embeds `ProcessManager.__process_with_operation_id` (lines 233-237). -/
def process_with_operation_id (st : MState) (op : Nat) : Option Proc :=
  st.active.find? (fun p => p.mission.operation_id = op)

/-- Embeds `ProcessManager.schedule_process` (lines 239-249).  Whether the
docker image exists on the host (`__image_available`, lines 226-231) is
external input, passed as `avail`. -/
def schedule_process (st : MState) (image : Nat) (m : Mission)
    (issuer : Nat) (avail : Bool) : SchedResult × MState :=
  if !avail then (.imageMissing, st)
  else if (process_with_operation_id st m.operation_id).isSome then (.duplicate, st)
  else
    let _id := st.next_id
    let item : QItem := ⟨m.effective_start_time, _id, image, m, issuer⟩
    (.ok _id, { st with queue := qInsert item st.queue, next_id := _id + 1 })

/-- Embeds `ProcessManager.halt_process` (lines 217-224): false and no change
when the id is not an active key; otherwise `p.halt()` on that process
and true. -/
def halt_process (st : MState) (pid : Nat) : Bool × MState :=
  if st.active.any (fun p => p.id = pid) then
    (true, { st with active := st.active.map (fun p => if p.id = pid then p.halt else p) })
  else (false, st)

/-- Embeds `ProcessManager.__start_new_process` (lines 209-215): construct the
`Process`, start its thread, insert it into the active map. -/
def start_new_process (st : MState) (q : QItem) : MState :=
  { st with active := st.active ++ [Process_mk q.id q.issuer q.image q.mission st.clock] }

/-- Embeds `ProcessManager.__dequeue_ps` (lines 252-264): give up when the
cached running count reaches the cap; peek the queue head and give up
when its start time is still in the future (`time.time() < start_time`);
otherwise pop it (`get_nowait`; an empty queue raises `Empty`, caught)
and start a new process for it. -/
def dequeue_ps (st : MState) : MState :=
  if st.ps_running ≥ st.max_concurrent_processes then st
  else
    match st.queue with
    | [] => st
    | q :: rest =>
        if st.clock < q.est then st
        else start_new_process { st with queue := rest } q

/-- Number of active processes in state RUNNING, as counted by the
monitor loop (lines 286-287). -/
def countRunning (ps : List Proc) : Nat :=
  (ps.filter (fun p => p.status = .RUNNING)).length

/-- The reap phase of one `ProcessManager.monitor` iteration (lines
271-290): move every active process whose status is terminal to the old
map and delete it from the active map, and store the RUNNING count in
`ps_running`. -/
def reap (st : MState) : MState :=
  { st with
      active := st.active.filter (fun p => !p.status.isTerminal),
      old := st.old ++ st.active.filter (fun p => p.status.isTerminal),
      ps_running := countRunning st.active }

/-- One iteration of `ProcessManager.monitor` (lines 270-294): the reap
phase followed by the dequeue step. -/
def monitor_iter (st : MState) : MState :=
  dequeue_ps (reap st)

/-- Apply a supervisor-thread step `f` to the processes selected by
`cond`.  A process object lives in the active map until the monitor
moves it to the old map; the map covers both so a step is applied to
the same object wherever it is (the guards in `cond` make every step a
no-op on processes whose supervisor has already returned). -/
def procStep (cond : Proc → Bool) (f : Proc → Proc) (st : MState) : MState :=
  { st with
      active := st.active.map (fun p => if cond p then f p else p),
      old := st.old.map (fun p => if cond p then f p else p) }

/-- Embeds `Process.run` line 141: the first `set_status(Process.RUNNING)`,
message and error_code left at their `None` defaults. -/
def stepRunStart (p : Proc) : Proc :=
  { p.set_status .RUNNING none none with phase := .atDocker }

/-- Embeds `Process.__run_docker_instance` lines 121-130: container created
and started successfully, second `set_status(Process.RUNNING)`. -/
def stepDockerStarted (p : Proc) : Proc :=
  { p.set_status .RUNNING none none with phase := .atMonitor }

/-- Embeds `Process.__run_docker_instance` lines 133-136 followed by
`Process.run` line 144: container create or start raised `e`, so
`__run_docker_instance` records `self.__error = e` and returns
`(Process.ERROR, None)`, and `run` calls
`set_status(ERROR, message=str(self.__error), error_code=None)`. -/
def stepDockerFailed (e : String) (p : Proc) : Proc :=
  { { p with error := some e }.set_status .ERROR (some e) none with phase := .done }

/-- Inner monitor lines 106-115 followed by `Process.run` line 144:
`container.wait` returned exit code `code` and error field `cerr`; the
monitor stores `self.__error = cerr`, translates the code, and returns
`(self.__code_to_result(code), reported_error_code code)`; `run` then
calls `set_status` with `message=str(self.__error)` (the error after
translation) and that error code. -/
def stepExited (code : Nat) (cerr : Option String) (p : Proc) : Proc :=
  let r := code_to_result code cerr
  { { p with error := r.2 }.set_status r.1 (some (pyStr r.2)) (reported_error_code code) with
      phase := .done }

/-- Inner monitor lines 97-105 followed by `Process.run` line 144: the
should-stop flag was observed.  If `container.stop` succeeds the monitor
returns `(Process.HALTED, None)`; if it raises `e` it records the error
and returns `(Process.ERROR, UNDEFINED_ERROR)`. -/
def stepHaltObserved (stop_ok : Bool) (e : String) (p : Proc) : Proc :=
  if stop_ok then
    { p.set_status .HALTED (some (pyStr p.error)) none with phase := .done }
  else
    { { p with error := some e }.set_status .ERROR (some e) (some UNDEFINED_ERROR) with
        phase := .done }

/-- One iteration of `ProcessManager.monitor` during which a submitter
thread's `schedule_process` completes its `put` (line 248) inside
`ProcessManager.__dequeue_ps`, between the `empty()` check at line 256
and `get_nowait()` at line 260.  Each queue operation is itself
thread-safe, but this check-then-act window is not:
when the queue was empty at the check, the peek and the due-time guard
(lines 257-259) are skipped entirely, so the freshly enqueued item is
popped and started with no check against its effective start time;
when the queue was non-empty at the check, the guard runs against the
head that was peeked, and `get_nowait` then pops the minimum of the
merged queue (which starts no earlier than the checked head, so that
interleaving is harmless).  When the running count already reached the
cap, `__dequeue_ps` has returned before the window exists and the
concurrent `put` simply lands during the iteration. -/
def monitor_iter_put_in_window (st : MState) (img : Nat) (m : Mission)
    (iss : Nat) (avail : Bool) : MState :=
  let st1 : MState := reap st
  if st1.ps_running ≥ st1.max_concurrent_processes then
    (schedule_process st1 img m iss avail).2
  else
    match st1.queue with
    | [] =>
        let st2 := (schedule_process st1 img m iss avail).2
        match st2.queue with
        | [] => st2
        | q :: rest => start_new_process { st2 with queue := rest } q
    | q :: _ =>
        if st1.clock < q.est then (schedule_process st1 img m iss avail).2
        else
          let st2 := (schedule_process st1 img m iss avail).2
          match st2.queue with
          | [] => st2
          | q2 :: rest2 => start_new_process { st2 with queue := rest2 } q2

/-- One atomic step of the concurrent system: a manager entry point, one
monitor-loop iteration (with or without a submitter's `put` landing
inside the dequeue step's check-then-act window), one supervisor-thread
step of a given process, or the wall clock advancing.  Labels carry the
environment's nondeterminism (image availability, container outcomes,
exception text). -/
inductive Action
  | schedule (image : Nat) (m : Mission) (issuer : Nat) (avail : Bool)
  | monitor
  | monitorPutInWindow (image : Nat) (m : Mission) (issuer : Nat) (avail : Bool)
  | halt (pid : Nat)
  | tick
  | runStart (pid : Nat)
  | dockerStarted (pid : Nat)
  | dockerFailed (pid : Nat) (e : String)
  | exited (pid : Nat) (code : Nat) (cerr : Option String)
  | haltObserved (pid : Nat) (stop_ok : Bool) (e : String)
deriving DecidableEq, Repr

/-- Whether the action is a monitor iteration with a submission landing
inside the dequeue step's `empty()`-to-`get_nowait()` window. -/
def isWindowPut : Action → Bool
  | .monitorPutInWindow _ _ _ _ => true
  | _ => false

/-- Interpretation of one action on the manager state. -/
def exec1 (st : MState) : Action → MState
  | .schedule image m issuer avail => (schedule_process st image m issuer avail).2
  | .monitor => monitor_iter st
  | .monitorPutInWindow image m issuer avail =>
      monitor_iter_put_in_window st image m issuer avail
  | .halt pid => (halt_process st pid).2
  | .tick => { st with clock := st.clock + 1 }
  | .runStart pid =>
      procStep (fun p => p.id = pid && p.phase = .atRun) stepRunStart st
  | .dockerStarted pid =>
      procStep (fun p => p.id = pid && p.phase = .atDocker) stepDockerStarted st
  | .dockerFailed pid e =>
      procStep (fun p => p.id = pid && p.phase = .atDocker) (stepDockerFailed e) st
  | .exited pid code cerr =>
      procStep (fun p => p.id = pid && p.phase = .atMonitor) (stepExited code cerr) st
  | .haltObserved pid ok e =>
      procStep (fun p => p.id = pid && p.phase = .atMonitor && p.should_stop)
        (stepHaltObserved ok e) st

/-- Execution of a sequence of actions; `exec (mk_manager max t0) acts`
ranges over exactly the reachable states of the model as `acts` ranges
over all action lists. -/
def exec (st : MState) (acts : List Action) : MState :=
  acts.foldl exec1 st

/-- In CPython the expression `items != dict()` where `items` is a
`dict_items` view is always True: a view object and a dict never compare
equal, whatever their contents.  `__get_active_processes` (line 298) and
`__get_old_processes` (line 302) guard on exactly that comparison
(`items != ` empty dict), so the guard is the constant true. -/
def dict_items_ne_empty_dict (_items : List (Nat × Status)) : Bool := true

/-- Embeds `ProcessManager.__get_active_processes` (lines 296-298). -/
def get_active_processes (st : MState) : Option (List (Nat × String)) :=
  let items := st.active.map (fun p => (p.id, p.status))
  if dict_items_ne_empty_dict items then
    some (st.active.map (fun p => (p.id, status_to_string p.status)))
  else none

/-- Embeds `ProcessManager.__get_old_processes` (lines 300-302). -/
def get_old_processes (st : MState) : Option (List (Nat × String)) :=
  let items := st.old.map (fun p => (p.id, p.status))
  if dict_items_ne_empty_dict items then
    some (st.old.map (fun p => (p.id, status_to_string p.status)))
  else none

/-- Embeds `ProcessManager.processes_info` (lines 307-312): the pair is the
dict with keys `active` and `old`. -/
def processes_info (st : MState) : Option (List (Nat × String)) × Option (List (Nat × String)) :=
  (get_active_processes st, get_old_processes st)

/-- Embeds `ProcessManager.get_process_queue_for_user` (lines 304-305). -/
def get_process_queue_for_user (st : MState) (user_id : Nat) : List QItem :=
  st.queue.filter (fun e => e.issuer = user_id)

/-- The externally visible effects of `ProcessManager.__init__`. -/
inductive BootEvent
  | monitorThreadStart
  | cleanupDangling
deriving DecidableEq, Repr

/-- The order of effects in `ProcessManager.__init__` (lines 189-201):
the monitor thread is started at line 199, and
`cleanup_dangling_processes(db)` is called at line 201. -/
def ProcessManager_boot_events : List BootEvent :=
  [.monitorThreadStart, .cleanupDangling]

/-- The status-transition edges of spec section 4.3, exactly as the
claim lists them. -/
def specEdge (a b : Status) : Prop :=
  (a = .CREATED ∧ b = .RUNNING) ∨ (a = .CREATED ∧ b = .ERROR)
    ∨ (a = .RUNNING ∧ b = .TERMINATED) ∨ (a = .RUNNING ∧ b = .HALTED)
    ∨ (a = .RUNNING ∧ b = .ERROR)

/-- The spec edges extended with the RUNNING to RUNNING self-edge that
the code actually takes (the second `set_status(RUNNING)` at line 130).
There is still no edge out of a terminal status. -/
def codeEdge (a b : Status) : Prop :=
  specEdge a b ∨ (a = .RUNNING ∧ b = .RUNNING)

instance (a b : Status) : Decidable (specEdge a b) := by
  unfold specEdge
  infer_instance

instance (a b : Status) : Decidable (codeEdge a b) := by
  unfold codeEdge
  infer_instance

/-- Every consecutive pair of the list is related by `r`. -/
def chainOk (r : Status → Status → Prop) : List Status → Prop
  | [] => True
  | [_] => True
  | a :: b :: rest => r a b ∧ chainOk r (b :: rest)

instance (r : Status → Status → Prop) [h : ∀ a b, Decidable (r a b)]
    (l : List Status) : Decidable (chainOk r l) := by
  induction l with
  | nil => exact isTrue trivial
  | cons a t ih =>
      cases t with
      | nil => exact isTrue trivial
      | cons b rest =>
          unfold chainOk
          exact @instDecidableAnd _ _ (h a b) ih

/-- The sequence of statuses a process has held: CREATED at
construction, then one status per `set_status` call. -/
def statusTrace (p : Proc) : List Status :=
  .CREATED :: p.history

/-- All processes the manager has ever owned: the active and old maps. -/
def allProcs (st : MState) : List Proc :=
  st.active ++ st.old

/-- Correlation between a supervisor's phase and its status history,
the inductive invariant behind the state-machine claims. -/
def procInv (p : Proc) : Prop :=
  match p.phase with
  | .atRun => p.history = [] ∧ p.status = .CREATED
  | .atDocker => p.history = [.RUNNING] ∧ p.status = .RUNNING
  | .atMonitor => p.history = [.RUNNING, .RUNNING] ∧ p.status = .RUNNING
  | .done => p.status.isTerminal = true
      ∧ (p.history = [.RUNNING, p.status] ∨ p.history = [.RUNNING, .RUNNING, p.status])

instance (p : Proc) : Decidable (procInv p) := by
  unfold procInv
  cases p.phase <;> infer_instance

/-- Every id the manager has handed out so far is below the fresh-id
counter. -/
def idsBelow (st : MState) : Prop :=
  (st.queue.map QItem.id ++ (allProcs st).map Proc.id).Forall (fun i => i < st.next_id)

/-- No two distinct active processes share an operation id — the
invariant part of spec O1. -/
def opUnique (st : MState) : Prop :=
  st.active.Pairwise (fun p q => p.mission.operation_id ≠ q.mission.operation_id)

instance (st : MState) : Decidable (opUnique st) := by
  unfold opUnique
  infer_instance

lemma mem_qInsert {x y : QItem} : ∀ {l : List QItem}, y ∈ qInsert x l → y = x ∨ y ∈ l := by
  intro l
  induction l with
  | nil => intro h; simp [qInsert] at h; exact Or.inl h
  | cons z zs ih =>
      intro h
      unfold qInsert at h
      by_cases hq : qLE x z
      · rw [if_pos hq, List.mem_cons, List.mem_cons] at h
        rcases h with h | h | h
        · exact Or.inl h
        · exact Or.inr (by simp [h])
        · exact Or.inr (by simp [h])
      · rw [if_neg hq, List.mem_cons] at h
        rcases h with h | h
        · exact Or.inr (by simp [h])
        · rcases ih h with h1 | h1
          · exact Or.inl h1
          · exact Or.inr (by simp [h1])

lemma self_mem_qInsert {x : QItem} : ∀ {l : List QItem}, x ∈ qInsert x l := by
  intro l
  induction l with
  | nil => simp [qInsert]
  | cons z zs ih =>
      unfold qInsert
      split
      · simp
      · simp [ih]

lemma code_to_result_isTerminal (c : Nat) (e : Option String) :
    ((code_to_result c e).1).isTerminal = true := by
  unfold code_to_result
  split_ifs <;> rfl

lemma procInv_stepRunStart {p : Proc} (hp : procInv p) (hc : p.phase = .atRun) :
    procInv (stepRunStart p) := by
  unfold procInv at hp
  rw [hc] at hp
  obtain ⟨h1, _⟩ := hp
  unfold procInv stepRunStart Proc.set_status
  simp [h1]

lemma procInv_stepDockerStarted {p : Proc} (hp : procInv p) (hc : p.phase = .atDocker) :
    procInv (stepDockerStarted p) := by
  unfold procInv at hp
  rw [hc] at hp
  obtain ⟨h1, _⟩ := hp
  unfold procInv stepDockerStarted Proc.set_status
  simp [h1]

lemma procInv_stepDockerFailed {p : Proc} (e : String) (hp : procInv p)
    (hc : p.phase = .atDocker) : procInv (stepDockerFailed e p) := by
  unfold procInv at hp
  rw [hc] at hp
  obtain ⟨h1, _⟩ := hp
  unfold procInv stepDockerFailed Proc.set_status
  simp [h1, Status.isTerminal]

lemma procInv_stepExited {p : Proc} (code : Nat) (cerr : Option String) (hp : procInv p)
    (hc : p.phase = .atMonitor) : procInv (stepExited code cerr p) := by
  unfold procInv at hp
  rw [hc] at hp
  obtain ⟨h1, _⟩ := hp
  unfold procInv stepExited Proc.set_status
  simp [h1, code_to_result_isTerminal]

lemma procInv_stepHaltObserved {p : Proc} (ok : Bool) (e : String) (hp : procInv p)
    (hc : p.phase = .atMonitor) : procInv (stepHaltObserved ok e p) := by
  unfold procInv at hp
  rw [hc] at hp
  obtain ⟨h1, _⟩ := hp
  unfold procInv stepHaltObserved Proc.set_status
  cases ok <;> simp [h1, Status.isTerminal]

lemma forall_map_ite {P : Proc → Prop} {cond : Proc → Bool} {f : Proc → Proc}
    (hPf : ∀ p, P p → P (f p)) :
    ∀ {l : List Proc}, (∀ p ∈ l, P p) → ∀ p ∈ l.map (fun p => if cond p then f p else p), P p := by
  intro l hl q hq
  rcases List.mem_map.mp hq with ⟨p, hp, rfl⟩
  cases hcp : cond p
  · simp only [hcp, Bool.false_eq_true, if_false]
    exact hl p hp
  · simp only [hcp, if_true]
    exact hPf p (hl p hp)

/-- The inductive invariant of the transition system: phase and history
stay correlated on every process the manager owns, every queue item
carries its mission's effective start time in its key, and every
handed-out id is below the fresh-id counter. -/
def ReachInv (st : MState) : Prop :=
  (∀ p ∈ allProcs st, procInv p)
  ∧ (∀ q ∈ st.queue, q.est = q.mission.effective_start_time)
  ∧ (∀ i ∈ st.queue.map QItem.id ++ (allProcs st).map Proc.id, i < st.next_id)

/-- No process the manager owns was started before its mission's
effective start time.  Unlike `ReachInv`, this property is not preserved
by `monitorPutInWindow`: an item enqueued inside the dequeue step's
empty-to-get_nowait window is started with the due-time guard skipped. -/
def estOk (st : MState) : Prop :=
  ∀ p ∈ allProcs st, p.mission.effective_start_time ≤ p.created_at

lemma ReachInv_mk_manager (max_concurrent t0 : Nat) : ReachInv (mk_manager max_concurrent t0) := by
  refine ⟨?_, ?_, ?_⟩ <;> simp [mk_manager, allProcs]

lemma estOk_mk_manager (max_concurrent t0 : Nat) : estOk (mk_manager max_concurrent t0) := by
  intro p hp
  simp [mk_manager, allProcs] at hp

lemma ReachInv_procStep {cond : Proc → Bool} {f : Proc → Proc}
    (hInv : ∀ p, procInv p → cond p = true → procInv (f p))
    (hId : ∀ p, (f p).id = p.id)
    {st : MState} (h : ReachInv st) : ReachInv (procStep cond f st) := by
  obtain ⟨h1, h2, h4⟩ := h
  have hmap : ∀ l : List Proc, (∀ p ∈ l, procInv p) →
      ∀ p ∈ l.map (fun p => if cond p then f p else p), procInv p := by
    intro l hl q hq
    rcases List.mem_map.mp hq with ⟨p, hp, rfl⟩
    cases hcp : cond p
    · simp only [hcp, Bool.false_eq_true, if_false]
      exact hl p hp
    · simp only [hcp, if_true]
      exact hInv p (hl p hp) hcp
  refine ⟨?_, ?_, ?_⟩
  · intro p hp
    unfold allProcs procStep at hp
    simp only at hp
    rcases List.mem_append.mp hp with hp | hp
    · exact hmap st.active (fun q hq => h1 q (List.mem_append_left _ hq)) p hp
    · exact hmap st.old (fun q hq => h1 q (List.mem_append_right _ hq)) p hp
  · intro q hq
    exact h2 q hq
  · intro i hi
    unfold allProcs procStep at hi
    simp only at hi
    have hidP : ∀ q : Proc, (if cond q then f q else q).id = q.id := by
      intro q
      cases hcq : cond q
      · simp
      · simp [hId q]
    rcases List.mem_append.mp hi with hi | hi
    · exact h4 i (List.mem_append_left _ hi)
    · rcases List.mem_map.mp hi with ⟨q, hq, rfl⟩
      rcases List.mem_append.mp hq with hq | hq
      · rcases List.mem_map.mp hq with ⟨r, hr, rfl⟩
        rw [hidP r]
        exact h4 r.id (List.mem_append_right _
          (List.mem_map.mpr ⟨r, List.mem_append_left _ hr, rfl⟩))
      · rcases List.mem_map.mp hq with ⟨r, hr, rfl⟩
        rw [hidP r]
        exact h4 r.id (List.mem_append_right _
          (List.mem_map.mpr ⟨r, List.mem_append_right _ hr, rfl⟩))

lemma estOk_procStep {cond : Proc → Bool} {f : Proc → Proc}
    (hMission : ∀ p, (f p).mission = p.mission)
    (hCreated : ∀ p, (f p).created_at = p.created_at)
    {st : MState} (h : estOk st) : estOk (procStep cond f st) := by
  intro p hp
  unfold allProcs procStep at hp
  simp only at hp
  have hP : ∀ q, q.mission.effective_start_time ≤ q.created_at →
      (if cond q then f q else q).mission.effective_start_time
        ≤ (if cond q then f q else q).created_at := by
    intro q hq
    cases hcq : cond q
    · simpa using hq
    · simpa [hMission q, hCreated q] using hq
  rcases List.mem_append.mp hp with hp | hp
  · rcases List.mem_map.mp hp with ⟨q, hq, rfl⟩
    exact hP q (h q (List.mem_append_left _ hq))
  · rcases List.mem_map.mp hp with ⟨q, hq, rfl⟩
    exact hP q (h q (List.mem_append_right _ hq))

lemma procInv_halt {p : Proc} (hp : procInv p) : procInv p.halt := by
  unfold procInv Proc.halt at *
  cases hph : p.phase <;> simp_all

lemma procInv_Process_mk (id issuer image : Nat) (m : Mission) (now : Nat) :
    procInv (Process_mk id issuer image m now) := by
  unfold procInv Process_mk
  simp

lemma ReachInv_schedule (st : MState) (img : Nat) (m : Mission) (iss : Nat) (av : Bool)
    (h : ReachInv st) : ReachInv (schedule_process st img m iss av).2 := by
  obtain ⟨h1, h2, h4⟩ := h
  unfold schedule_process
  split_ifs with hav hdup
  · exact ⟨h1, h2, h4⟩
  · exact ⟨h1, h2, h4⟩
  · refine ⟨h1, ?_, ?_⟩
    · intro q hq
      rcases mem_qInsert hq with rfl | hq
      · rfl
      · exact h2 q hq
    · intro i hi
      simp only [List.mem_append, List.mem_map] at hi
      rcases hi with ⟨q, hq, rfl⟩ | ⟨p, hp, rfl⟩
      · rcases mem_qInsert hq with rfl | hq
        · exact Nat.lt_succ_self _
        · exact Nat.lt_succ_of_lt (h4 q.id (List.mem_append_left _ (List.mem_map.mpr ⟨q, hq, rfl⟩)))
      · exact Nat.lt_succ_of_lt (h4 p.id (List.mem_append_right _ (List.mem_map.mpr ⟨p, hp, rfl⟩)))

lemma estOk_schedule (st : MState) (img : Nat) (m : Mission) (iss : Nat) (av : Bool)
    (h : estOk st) : estOk (schedule_process st img m iss av).2 := by
  unfold schedule_process
  split_ifs <;> exact h

lemma ReachInv_halt_process (st : MState) (pid : Nat) (h : ReachInv st) :
    ReachInv (halt_process st pid).2 := by
  obtain ⟨h1, h2, h4⟩ := h
  unfold halt_process
  split_ifs with hfound
  · refine ⟨?_, h2, ?_⟩
    · intro p hp
      unfold allProcs at hp
      simp only [List.mem_append, List.mem_map] at hp
      rcases hp with ⟨q, hq, rfl⟩ | hp
      · by_cases hid : q.id = pid
        · simp only [hid, if_true]
          exact procInv_halt (h1 q (List.mem_append_left _ hq))
        · simp only [hid, if_false]
          exact h1 q (List.mem_append_left _ hq)
      · exact h1 p (List.mem_append_right _ hp)
    · intro i hi
      apply h4 i
      unfold allProcs at hi ⊢
      rcases List.mem_append.mp hi with hqi | hpi
      · exact List.mem_append_left _ hqi
      · apply List.mem_append_right
        rcases List.mem_map.mp hpi with ⟨p, hp, rfl⟩
        rcases List.mem_append.mp hp with hp | hp
        · rcases List.mem_map.mp hp with ⟨q, hq, rfl⟩
          have hqid : (if q.id = pid then q.halt else q).id = q.id := by
            by_cases hid : q.id = pid <;> simp [hid, Proc.halt]
          rw [hqid]
          exact List.mem_map.mpr ⟨q, List.mem_append_left _ hq, rfl⟩
        · exact List.mem_map.mpr ⟨p, List.mem_append_right _ hp, rfl⟩
  · exact ⟨h1, h2, h4⟩

lemma estOk_halt_process (st : MState) (pid : Nat) (h : estOk st) :
    estOk (halt_process st pid).2 := by
  unfold halt_process
  split_ifs with hfound
  · intro p hp
    unfold allProcs at hp
    simp only [List.mem_append, List.mem_map] at hp
    rcases hp with ⟨q, hq, rfl⟩ | hp
    · have := h q (List.mem_append_left _ hq)
      by_cases hid : q.id = pid <;> simp [hid, Proc.halt, this]
    · exact h p (List.mem_append_right _ hp)
  · exact h

lemma ReachInv_pop_start (s : MState) (q : QItem) (rest : List QItem)
    (hq : s.queue = q :: rest) (h : ReachInv s) :
    ReachInv (start_new_process { s with queue := rest } q) := by
  obtain ⟨h1, h2, h4⟩ := h
  have hqmem : q ∈ s.queue := by rw [hq]; exact List.mem_cons_self _ _
  unfold start_new_process
  refine ⟨?_, ?_, ?_⟩
  · intro p hp
    unfold allProcs at hp
    simp only [List.mem_append, List.mem_cons] at hp
    rcases hp with (hp | hp) | hp
    · exact h1 p (List.mem_append_left _ hp)
    · rcases hp with rfl | hfalse
      · exact procInv_Process_mk _ _ _ _ _
      · cases hfalse
    · exact h1 p (List.mem_append_right _ hp)
  · intro x hx
    exact h2 x (by rw [hq]; exact List.mem_cons_of_mem _ hx)
  · intro i hi
    unfold allProcs at hi
    simp only [List.mem_append, List.mem_map, List.mem_cons] at hi
    rcases hi with ⟨x, hx, rfl⟩ | ⟨p, hp, rfl⟩
    · exact h4 x.id (List.mem_append_left _
        (List.mem_map.mpr ⟨x, by rw [hq]; exact List.mem_cons_of_mem _ hx, rfl⟩))
    · rcases hp with (hp | hp) | hp
      · exact h4 p.id (List.mem_append_right _
          (List.mem_map.mpr ⟨p, List.mem_append_left _ hp, rfl⟩))
      · rcases hp with rfl | hfalse
        · exact h4 q.id (List.mem_append_left _ (List.mem_map.mpr ⟨q, hqmem, rfl⟩))
        · cases hfalse
      · exact h4 p.id (List.mem_append_right _
          (List.mem_map.mpr ⟨p, List.mem_append_right _ hp, rfl⟩))

lemma ReachInv_dequeue (s : MState) (h : ReachInv s) : ReachInv (dequeue_ps s) := by
  unfold dequeue_ps
  split_ifs with hcap
  · exact h
  · cases hq : s.queue with
    | nil => exact h
    | cons q rest =>
        dsimp only
        split_ifs with htime
        · exact h
        · exact ReachInv_pop_start s q rest hq h

lemma estOk_dequeue (s : MState)
    (h2 : ∀ q ∈ s.queue, q.est = q.mission.effective_start_time)
    (h : estOk s) : estOk (dequeue_ps s) := by
  unfold dequeue_ps
  split_ifs with hcap
  · exact h
  · cases hq : s.queue with
    | nil => exact h
    | cons q rest =>
        dsimp only
        split_ifs with htime
        · exact h
        · intro p hp
          unfold start_new_process allProcs at hp
          simp only [List.mem_append, List.mem_cons] at hp
          rcases hp with (hp | hp) | hp
          · exact h p (List.mem_append_left _ hp)
          · rcases hp with rfl | hfalse
            · have hest : q.est = q.mission.effective_start_time :=
                h2 q (by rw [hq]; exact List.mem_cons_self _ _)
              unfold Process_mk
              simp only
              omega
            · cases hfalse
          · exact h p (List.mem_append_right _ hp)

lemma ReachInv_reap (st : MState) (h : ReachInv st) : ReachInv (reap st) := by
  obtain ⟨h1, h2, h4⟩ := h
  unfold reap
  refine ⟨?_, h2, ?_⟩
  · intro p hp
    unfold allProcs at hp
    simp only [List.mem_append, List.mem_filter] at hp
    rcases hp with ⟨hp, _⟩ | hp | ⟨hp, _⟩
    · exact h1 p (List.mem_append_left _ hp)
    · exact h1 p (List.mem_append_right _ hp)
    · exact h1 p (List.mem_append_left _ hp)
  · intro i hi
    apply h4 i
    unfold allProcs at hi ⊢
    rcases List.mem_append.mp hi with hqi | hpi
    · exact List.mem_append_left _ hqi
    · apply List.mem_append_right
      rcases List.mem_map.mp hpi with ⟨p, hp, rfl⟩
      rcases List.mem_append.mp hp with hp | hp
      · exact List.mem_map.mpr ⟨p, List.mem_append_left _ (List.mem_filter.mp hp).1, rfl⟩
      · rcases List.mem_append.mp hp with hp | hp
        · exact List.mem_map.mpr ⟨p, List.mem_append_right _ hp, rfl⟩
        · exact List.mem_map.mpr ⟨p, List.mem_append_left _ (List.mem_filter.mp hp).1, rfl⟩

lemma estOk_reap (st : MState) (h : estOk st) : estOk (reap st) := by
  intro p hp
  unfold reap allProcs at hp
  simp only [List.mem_append, List.mem_filter] at hp
  rcases hp with ⟨hp, _⟩ | hp | ⟨hp, _⟩
  · exact h p (List.mem_append_left _ hp)
  · exact h p (List.mem_append_right _ hp)
  · exact h p (List.mem_append_left _ hp)

lemma ReachInv_monitor (st : MState) (h : ReachInv st) : ReachInv (monitor_iter st) := by
  unfold monitor_iter
  exact ReachInv_dequeue _ (ReachInv_reap st h)

lemma estOk_monitor (st : MState)
    (h2 : ∀ q ∈ st.queue, q.est = q.mission.effective_start_time)
    (h : estOk st) : estOk (monitor_iter st) := by
  unfold monitor_iter
  exact estOk_dequeue _ (fun q hq => h2 q hq) (estOk_reap st h)

lemma ReachInv_monitor_put_in_window (st : MState) (img : Nat) (m : Mission)
    (iss : Nat) (avail : Bool) (h : ReachInv st) :
    ReachInv (monitor_iter_put_in_window st img m iss avail) := by
  have h1 : ReachInv (reap st) := ReachInv_reap st h
  unfold monitor_iter_put_in_window
  dsimp only
  split_ifs with hcap
  · exact ReachInv_schedule _ img m iss avail h1
  · cases hq : (reap st).queue with
    | nil =>
        dsimp only
        cases hq2 : (schedule_process (reap st) img m iss avail).2.queue with
        | nil => exact ReachInv_schedule _ img m iss avail h1
        | cons q rest =>
            exact ReachInv_pop_start _ q rest hq2 (ReachInv_schedule _ img m iss avail h1)
    | cons q rest =>
        dsimp only
        split_ifs with htime
        · exact ReachInv_schedule _ img m iss avail h1
        · cases hq2 : (schedule_process (reap st) img m iss avail).2.queue with
          | nil => exact ReachInv_schedule _ img m iss avail h1
          | cons q2 rest2 =>
              exact ReachInv_pop_start _ q2 rest2 hq2 (ReachInv_schedule _ img m iss avail h1)

lemma ReachInv_exec1 (st : MState) (a : Action) (h : ReachInv st) : ReachInv (exec1 st a) := by
  cases a with
  | schedule img m iss av => exact ReachInv_schedule st img m iss av h
  | monitor => exact ReachInv_monitor st h
  | monitorPutInWindow img m iss av => exact ReachInv_monitor_put_in_window st img m iss av h
  | halt pid => exact ReachInv_halt_process st pid h
  | tick => exact h
  | runStart pid =>
      show ReachInv (procStep _ _ _)
      apply ReachInv_procStep
      · intro p hp hc
        simp only [Bool.and_eq_true, decide_eq_true_eq] at hc
        exact procInv_stepRunStart hp hc.2
      · intro p; rfl
      · exact h
  | dockerStarted pid =>
      show ReachInv (procStep _ _ _)
      apply ReachInv_procStep
      · intro p hp hc
        simp only [Bool.and_eq_true, decide_eq_true_eq] at hc
        exact procInv_stepDockerStarted hp hc.2
      · intro p; rfl
      · exact h
  | dockerFailed pid e =>
      show ReachInv (procStep _ _ _)
      apply ReachInv_procStep
      · intro p hp hc
        simp only [Bool.and_eq_true, decide_eq_true_eq] at hc
        exact procInv_stepDockerFailed e hp hc.2
      · intro p; rfl
      · exact h
  | exited pid code cerr =>
      show ReachInv (procStep _ _ _)
      apply ReachInv_procStep
      · intro p hp hc
        simp only [Bool.and_eq_true, decide_eq_true_eq] at hc
        exact procInv_stepExited code cerr hp hc.2
      · intro p; rfl
      · exact h
  | haltObserved pid ok e =>
      show ReachInv (procStep _ _ _)
      apply ReachInv_procStep
      · intro p hp hc
        simp only [Bool.and_eq_true, decide_eq_true_eq] at hc
        exact procInv_stepHaltObserved ok e hp hc.1.2
      · intro p
        unfold stepHaltObserved
        cases ok <;> rfl
      · exact h

lemma estOk_exec1 (st : MState) (a : Action) (hra : isWindowPut a = false)
    (hinv : ReachInv st) (h : estOk st) : estOk (exec1 st a) := by
  cases a with
  | schedule img m iss av => exact estOk_schedule st img m iss av h
  | monitor => exact estOk_monitor st hinv.2.1 h
  | monitorPutInWindow img m iss av => simp [isWindowPut] at hra
  | halt pid => exact estOk_halt_process st pid h
  | tick => exact h
  | runStart pid =>
      show estOk (procStep _ _ _)
      apply estOk_procStep
      · intro p; rfl
      · intro p; rfl
      · exact h
  | dockerStarted pid =>
      show estOk (procStep _ _ _)
      apply estOk_procStep
      · intro p; rfl
      · intro p; rfl
      · exact h
  | dockerFailed pid e =>
      show estOk (procStep _ _ _)
      apply estOk_procStep
      · intro p; rfl
      · intro p; rfl
      · exact h
  | exited pid code cerr =>
      show estOk (procStep _ _ _)
      apply estOk_procStep
      · intro p; rfl
      · intro p; rfl
      · exact h
  | haltObserved pid ok e =>
      show estOk (procStep _ _ _)
      apply estOk_procStep
      · intro p
        unfold stepHaltObserved
        cases ok <;> rfl
      · intro p
        unfold stepHaltObserved
        cases ok <;> rfl
      · exact h

lemma ReachInv_exec (acts : List Action) : ∀ st : MState, ReachInv st → ReachInv (exec st acts) := by
  induction acts with
  | nil => intro st h; exact h
  | cons a rest ih =>
      intro st h
      exact ih (exec1 st a) (ReachInv_exec1 st a h)

lemma estOk_exec (acts : List Action) :
    ∀ st : MState, (∀ a ∈ acts, isWindowPut a = false) → ReachInv st → estOk st →
      estOk (exec st acts) := by
  induction acts with
  | nil => intro st _ _ h; exact h
  | cons a rest ih =>
      intro st hra hinv h
      exact ih (exec1 st a) (fun b hb => hra b (List.mem_cons_of_mem _ hb))
        (ReachInv_exec1 st a hinv)
        (estOk_exec1 st a (hra a (List.mem_cons_self _ _)) hinv h)

lemma procInv_chainOk {p : Proc} (hp : procInv p) : chainOk codeEdge (statusTrace p) := by
  unfold procInv at hp
  unfold statusTrace
  cases hph : p.phase <;> rw [hph] at hp
  · rw [hp.1]
    simp [chainOk]
  · rw [hp.1]
    simp [chainOk, codeEdge, specEdge]
  · rw [hp.1]
    simp [chainOk, codeEdge, specEdge]
  · obtain ⟨ht, hh | hh⟩ := hp <;> rw [hh] <;>
      cases hstat : p.status <;> simp_all [chainOk, codeEdge, specEdge, Status.isTerminal]

/-- A mission with operation id 5, eligible to start immediately. -/
def mission_op5 : Mission := ⟨5, 0, 0⟩

/-- A mission with operation id 6, eligible to start immediately. -/
def mission_op6 : Mission := ⟨6, 0, 0⟩

/-- A mission whose effective start time lies in the future of the
initial clock. -/
def mission_future : Mission := ⟨7, 5, 0⟩

/-- Submit the same operation twice while neither is active yet, then
let the monitor dequeue both. -/
def dupOpTrace : List Action :=
  [.schedule 1 mission_op5 9 true, .schedule 1 mission_op5 9 true, .monitor, .monitor]

/-- Admit one process and let its supervisor reach the container-started
point: `run` sets RUNNING at line 141 and `__run_docker_instance` sets
RUNNING again at line 130. -/
def doubleRunningTrace : List Action :=
  [.schedule 1 mission_op5 9 true, .monitor, .runStart 0, .dockerStarted 0]

/-- With a cap of one, the monitor dequeues a second process while the
first is still CREATED (its thread has not yet set RUNNING), after which
both supervisors set RUNNING. -/
def overCapTrace : List Action :=
  [.schedule 1 mission_op5 9 true, .schedule 1 mission_op6 9 true,
   .monitor, .monitor, .runStart 0, .runStart 1]

/-- C1 counterexample: a reachable state of the manager holds two active
processes with the same operation id, because `schedule_process` checks
the active set only and the queue may hold duplicates. -/
theorem active_operation_ids_not_unique :
    ¬ opUnique (exec (mk_manager 8 0) dupOpTrace) := by decide

/-- C1 (amended): a call to `schedule_process` made while an active
process carries the same operation id fails with the duplicate-operation
error and changes nothing — but this check does not extend to queued
items, so the active set can come to hold duplicates (see the
counterexample). -/
theorem schedule_duplicate_rejected :
    ∀ (st : MState) (img : Nat) (m : Mission) (iss : Nat),
      (∃ p ∈ st.active, p.mission.operation_id = m.operation_id) →
      schedule_process st img m iss true = (.duplicate, st) := by
  intro st img m iss h
  obtain ⟨p, hp, hop⟩ := h
  have hsome : (process_with_operation_id st m.operation_id).isSome = true := by
    unfold process_with_operation_id
    rw [List.find?_isSome]
    exact ⟨p, hp, by simp [hop]⟩
  unfold schedule_process
  simp [hsome]

/-- C1 witness: a concrete duplicate submission against a state with an
active process for operation 5. -/
theorem schedule_duplicate_rejected_witness :
    schedule_process (exec (mk_manager 8 0) [.schedule 1 mission_op5 9 true, .monitor])
        1 mission_op5 9 true
      = (.duplicate, exec (mk_manager 8 0) [.schedule 1 mission_op5 9 true, .monitor]) :=
  schedule_duplicate_rejected _ 1 mission_op5 9 (by decide)

/-- C2 counterexample: a reachable state holds a process whose status
trace took a transition outside the section 4.3 edges — the RUNNING to
RUNNING step produced by the second `set_status(RUNNING)` at line 130. -/
theorem running_to_running_reachable :
    ¬ (allProcs (exec (mk_manager 8 0) doubleRunningTrace)).Forall
        (fun p => chainOk specEdge (statusTrace p)) := by decide

/-- C2 (amended): every status trace of every process in every reachable
state follows the section 4.3 edges extended with the RUNNING to RUNNING
self-edge, and no edge leaves a terminal status, so terminal states are
absorbing and fire no further callback. -/
theorem process_transitions_follow_code_edges :
    (∀ (mx t0 : Nat) (acts : List Action),
      (allProcs (exec (mk_manager mx t0) acts)).Forall
        (fun p => chainOk codeEdge (statusTrace p)))
    ∧ (∀ a b : Status, a.isTerminal = false ∨ ¬ codeEdge a b) := by
  constructor
  · intro mx t0 acts
    rw [List.forall_iff_forall_mem]
    intro p hp
    exact procInv_chainOk ((ReachInv_exec acts _ (ReachInv_mk_manager mx t0)).1 p hp)
  · intro a b
    cases a <;> cases b <;> simp [Status.isTerminal, codeEdge, specEdge]

/-- C3 counterexample: with a cap of one concurrent process, a reachable
state has two processes in state RUNNING, because the monitor counts
only processes already RUNNING and dequeued a second item while the
first process was still CREATED. -/
theorem running_count_exceeds_cap :
    ¬ (countRunning (exec (mk_manager 1 0) overCapTrace).active
        ≤ (exec (mk_manager 1 0) overCapTrace).max_concurrent_processes) := by decide

/-- C3 (amended): one monitor iteration pops at most one queue item, and
pops only when the number of RUNNING processes it just counted is
strictly below the cap and the queue head is due — but processes it
starts are only counted once their own thread reaches RUNNING, so the
RUNNING count can exceed the cap (see the counterexample). -/
theorem monitor_dequeue_below_cap :
    ∀ st : MState,
      (monitor_iter st).queue = st.queue
      ∨ (countRunning st.active < st.max_concurrent_processes
         ∧ ∃ q rest, st.queue = q :: rest ∧ q.est ≤ st.clock
            ∧ (monitor_iter st).queue = rest) := by
  intro st
  unfold monitor_iter reap dequeue_ps
  dsimp only
  split_ifs with hcap
  · exact Or.inl rfl
  · cases hq : st.queue with
    | nil => exact Or.inl rfl
    | cons q rest =>
        dsimp only
        split_ifs with htime
        · exact Or.inl rfl
        · exact Or.inr ⟨by omega, q, rest, rfl, by omega, rfl⟩

/-- A monitor iteration at clock 0 during which a submission for a
mission due at time 5 lands inside the dequeue step's empty-queue
window: the due-time guard is skipped and the item is started at once. -/
def windowPutTrace : List Action := [.monitorPutInWindow 1 mission_future 9 true]

/-- C4 counterexample: a reachable state holds a process created (and
its thread started) at wall-clock time 0 for a mission whose effective
start time is 5.  The queue was empty at the `empty()` check of line
256, a submitter's `put` landed before the `get_nowait()` of line 260,
and the item was popped with the lines 257-259 due-time guard never
executed. -/
theorem started_before_effective_start_time :
    ¬ (allProcs (exec (mk_manager 8 0) windowPutTrace)).Forall
        (fun p => p.mission.effective_start_time ≤ p.created_at) := by decide

/-- C4 (amended): the dequeue step honours the due-time guard for every
item it actually peeks — when the queue head it observed is still in the
future it pops nothing and starts nothing — and in every execution in
which no submission completes inside the dequeue step's
`empty()`-to-`get_nowait()` window, no process is ever started before
its mission's effective start time; a submission landing inside that
window while the queue was empty at the check is, however, started
immediately, bypassing the guard (see the counterexample). -/
theorem queue_obedience_outside_window :
    (∀ (mx t0 : Nat) (acts : List Action),
      (∀ a ∈ acts, isWindowPut a = false) →
      (allProcs (exec (mk_manager mx t0) acts)).Forall
        (fun p => p.mission.effective_start_time ≤ p.created_at))
    ∧ (∀ (st : MState) (q : QItem) (rest : List QItem),
        st.queue = q :: rest → st.clock < q.est →
        (monitor_iter st).queue = st.queue
        ∧ (monitor_iter st).active = st.active.filter (fun p => !p.status.isTerminal)) := by
  constructor
  · intro mx t0 acts hra
    rw [List.forall_iff_forall_mem]
    exact estOk_exec acts _ hra (ReachInv_mk_manager mx t0) (estOk_mk_manager mx t0)
  · intro st q rest hq htime
    unfold monitor_iter reap dequeue_ps
    dsimp only
    rw [hq]
    dsimp only
    split_ifs with hcap
    · exact ⟨rfl, rfl⟩
    · exact ⟨rfl, rfl⟩

/-- C4 witness: an execution without an in-window put keeps the
future-dated item unstarted, and a monitor iteration over a state whose
single queued item is due at time 5 while the clock reads 0 leaves the
queue alone. -/
theorem queue_obedience_outside_window_witness :
    ((allProcs (exec (mk_manager 8 0) [.schedule 1 mission_future 9 true, .monitor])).Forall
      (fun p => p.mission.effective_start_time ≤ p.created_at))
    ∧ (monitor_iter (exec (mk_manager 8 0) [.schedule 1 mission_future 9 true])).queue
        = (exec (mk_manager 8 0) [.schedule 1 mission_future 9 true]).queue :=
  ⟨queue_obedience_outside_window.1 8 0 _ (by decide),
   (queue_obedience_outside_window.2 _ ⟨5, 0, 1, mission_future, 9⟩ [] (by decide) (by decide)).1⟩

/-- C6: the schedule contract.  With the image unavailable the call
returns the null id and the whole state (queue included) is unchanged.
With the image available and no active duplicate it returns the freshly
generated id, enqueues the tuple
`(effective_start_time, id, image, mission_payload, issuer_id)`, and the
generated id is fresh: in every reachable state all previously issued
ids lie below the counter, so the new id collides with nothing. -/
theorem schedule_contract :
    (∀ (st : MState) (img : Nat) (m : Mission) (iss : Nat),
      schedule_process st img m iss false = (.imageMissing, st))
    ∧ (∀ (st : MState) (img : Nat) (m : Mission) (iss : Nat),
        (∀ p ∈ st.active, p.mission.operation_id ≠ m.operation_id) →
        schedule_process st img m iss true
          = (.ok st.next_id,
             { st with
                 queue := qInsert ⟨m.effective_start_time, st.next_id, img, m, iss⟩ st.queue,
                 next_id := st.next_id + 1 })
        ∧ (⟨m.effective_start_time, st.next_id, img, m, iss⟩ : QItem)
            ∈ (schedule_process st img m iss true).2.queue)
    ∧ (∀ (mx t0 : Nat) (acts : List Action), idsBelow (exec (mk_manager mx t0) acts))
    ∧ (∀ st : MState, idsBelow st →
        st.next_id ∉ st.queue.map QItem.id ∧ st.next_id ∉ (allProcs st).map Proc.id) := by
  refine ⟨?_, ?_, ?_, ?_⟩
  · intro st img m iss
    rfl
  · intro st img m iss h
    have hnone : process_with_operation_id st m.operation_id = none := by
      unfold process_with_operation_id
      rw [List.find?_eq_none]
      intro p hp
      simp [h p hp]
    have hmain : schedule_process st img m iss true
        = (.ok st.next_id,
           { st with
               queue := qInsert ⟨m.effective_start_time, st.next_id, img, m, iss⟩ st.queue,
               next_id := st.next_id + 1 }) := by
      unfold schedule_process
      simp [hnone]
    refine ⟨hmain, ?_⟩
    rw [hmain]
    exact self_mem_qInsert
  · intro mx t0 acts
    unfold idsBelow
    rw [List.forall_iff_forall_mem]
    exact (ReachInv_exec acts _ (ReachInv_mk_manager mx t0)).2.2
  · intro st h
    have h4 := List.forall_iff_forall_mem.mp h
    constructor
    · intro hmem
      exact absurd (h4 st.next_id (List.mem_append_left _ hmem)) (lt_irrefl _)
    · intro hmem
      exact absurd (h4 st.next_id (List.mem_append_right _ hmem)) (lt_irrefl _)

/-- C6 witness: scheduling operation 5 on a fresh manager enqueues
`(0, 0, 1, mission_op5, 9)` and returns id 0. -/
theorem schedule_contract_witness :
    schedule_process (mk_manager 8 0) 1 mission_op5 9 true
      = (.ok 0,
         { mk_manager 8 0 with queue := qInsert ⟨0, 0, 1, mission_op5, 9⟩ [], next_id := 1 })
    ∧ (⟨0, 0, 1, mission_op5, 9⟩ : QItem)
        ∈ (schedule_process (mk_manager 8 0) 1 mission_op5 9 true).2.queue :=
  schedule_contract.2.1 (mk_manager 8 0) 1 mission_op5 9 (by decide)

/-- C7 counterexample: in `ProcessManager.__init__` the call to the
StateStore's cleanup of dangling records does not precede the monitor
thread start. -/
theorem cleanup_not_before_monitor_thread :
    ¬ (ProcessManager_boot_events.indexOf BootEvent.cleanupDangling
        < ProcessManager_boot_events.indexOf BootEvent.monitorThreadStart) := by decide

/-- C7 (amended): on construction the manager starts the monitor thread
first (line 199) and only then calls cleanup_dangling_processes
(line 201); both effects do occur. -/
theorem monitor_thread_starts_before_cleanup :
    ProcessManager_boot_events.indexOf BootEvent.monitorThreadStart
        < ProcessManager_boot_events.indexOf BootEvent.cleanupDangling
    ∧ BootEvent.monitorThreadStart ∈ ProcessManager_boot_events
    ∧ BootEvent.cleanupDangling ∈ ProcessManager_boot_events := by decide

/-- C8 counterexample: with both sets empty, `processes_info` maps each
key to an empty dictionary, not to null: the guard
`items != ` empty dict compares a dict_items view with a dict and is
always True in Python. -/
theorem processes_info_empty_not_null :
    (mk_manager 8 0).active = [] ∧ (mk_manager 8 0).old = []
    ∧ (processes_info (mk_manager 8 0)).1 ≠ none
    ∧ (processes_info (mk_manager 8 0)).2 ≠ none := by decide

/-- C8 (amended): `processes_info` always returns, under the keys
`active` and `old`, the dictionary from process id to state name — the
empty dictionary rather than null when the corresponding set is empty. -/
theorem processes_info_always_some :
    ∀ st : MState,
      processes_info st
        = (some (st.active.map (fun p => (p.id, status_to_string p.status))),
           some (st.old.map (fun p => (p.id, status_to_string p.status)))) := by
  intro st
  rfl

/-- C9: `halt_process` returns true exactly when the id is an active
key; on false it changes nothing at all; on true it only maps the
matching process through `halt`, which sets the should-stop flag and
nothing else (no status change, no callback). -/
theorem halt_contract :
    ∀ (st : MState) (pid : Nat),
      ((halt_process st pid).1 = true ↔ ∃ p ∈ st.active, p.id = pid)
      ∧ ((halt_process st pid).1 = false → (halt_process st pid).2 = st)
      ∧ ((halt_process st pid).1 = true →
          (halt_process st pid).2
            = { st with active := st.active.map (fun p => if p.id = pid then p.halt else p) })
      ∧ (∀ p : Proc, (p.halt).should_stop = true ∧ (p.halt).status = p.status
          ∧ (p.halt).history = p.history ∧ (p.halt).phase = p.phase
          ∧ (p.halt).id = p.id ∧ (p.halt).message = p.message) := by
  intro st pid
  unfold halt_process
  split_ifs with hfound
  · simp only [List.any_eq_true, decide_eq_true_eq] at hfound
    refine ⟨iff_of_true rfl hfound, ?_, ?_, ?_⟩
    · intro hf
      exact absurd hf (by simp)
    · intro _
      rfl
    · intro p
      exact ⟨rfl, rfl, rfl, rfl, rfl, rfl⟩
  · simp only [List.any_eq_true, decide_eq_true_eq] at hfound
    refine ⟨iff_of_false (by simp) hfound, ?_, ?_, ?_⟩
    · intro _
      rfl
    · intro hf
      exact absurd hf (by simp)
    · intro p
      exact ⟨rfl, rfl, rfl, rfl, rfl, rfl⟩

/-- C9 witness: halting the single active process of a concrete state
returns true. -/
theorem halt_contract_witness :
    (halt_process (exec (mk_manager 8 0) [.schedule 1 mission_op5 9 true, .monitor]) 0).1
      = true :=
  ((halt_contract (exec (mk_manager 8 0) [.schedule 1 mission_op5 9 true, .monitor]) 0).1).mpr
    (by decide)

/-- C10: `set_status` overwrites the status message and the error code
with its arguments; the call sites that omit them pass None, so after
the CREATED to RUNNING transition at line 141 the status string reads
"RUNNING (None)" — the initial "No message" is lost — and any prior
error_code is cleared by a later `set_status` that omits it. -/
theorem set_status_overwrites :
    (∀ (p : Proc) (s : Status) (msg : Option String) (ec : Option Nat),
      (p.set_status s msg ec).message = msg
      ∧ (p.set_status s msg ec).error_code = ec
      ∧ (p.set_status s msg ec).status = s
      ∧ (p.set_status s msg ec).history = p.history ++ [s])
    ∧ (∀ (id issuer image : Nat) (m : Mission) (now : Nat),
        (Process_mk id issuer image m now).message = some "No message"
        ∧ (Process_mk id issuer image m now).get_status_string = "CREATED (No message)")
    ∧ (∀ p : Proc,
        (stepRunStart p).get_status_string = "RUNNING (None)"
        ∧ (stepRunStart p).message = none
        ∧ (stepRunStart p).error_code = none
        ∧ (stepRunStart p).status = .RUNNING) := by
  refine ⟨?_, ?_, ?_⟩
  · intro p s msg ec
    exact ⟨rfl, rfl, rfl, rfl⟩
  · intro id issuer image m now
    exact ⟨rfl, rfl⟩
  · intro p
    exact ⟨rfl, rfl, rfl, rfl⟩

end Orchestrator
